import Mathlib

/-!
# Verification of the lkpy entity-attribute store and its consumers

This development gives a shallow embedding of the data layer of the
repository (identifier vocabularies, the dataset builder with its four
attribute layouts, and the export surface) together with two consumers
that are present in the sources: the user-based k-NN scorer
(`lenskit/knn/user.py`) and the bulk metric results
(`lenskit/metrics/bulk.py`).  The vocabulary, builder and dataset
implementations themselves are not among the source files, only their
tests and callers, so those parts are modelled from the specification;
the consumer code is translated directly from the Python sources.
-/

namespace LKSpec

/-! ## Vocabulary

Modelled from the spec: the implementation (`lenskit/data/vocab.py`) is
not among the source files; only the spec (§3, §4.1) and callers
describe it.  A vocabulary is an ordered sequence of unique identifiers;
the position of an identifier is its index in that sequence. -/

/-- Modelled from the spec: a Vocabulary is an ordered sequence of unique
identifiers; positions are list indices. -/
structure Vocabulary where
  ids : List Int
deriving DecidableEq, Repr

/-- The empty vocabulary. -/
def Vocabulary.empty : Vocabulary := ⟨[]⟩

/-- Number of registered identifiers. -/
def Vocabulary.size (v : Vocabulary) : Nat := v.ids.length

/-- Modelled from the spec: `register` assigns fresh positions to any
identifier not already present, in first-seen order; re-registering is a
no-op. -/
def Vocabulary.register (v : Vocabulary) (new : List Int) : Vocabulary :=
  ⟨new.foldl (fun acc i => if i ∈ acc then acc else acc ++ [i]) v.ids⟩

/-- Modelled from the spec: `position_of` returns the identifier's dense
position, or none when it was never registered. -/
def Vocabulary.positionOf (v : Vocabulary) (i : Int) : Option Nat :=
  if i ∈ v.ids then some (v.ids.indexOf i) else none

/-- Modelled from the spec: `id_at` is the reverse lookup, failing (none)
when the position is out of range. -/
def Vocabulary.idAt (v : Vocabulary) (p : Nat) : Option Int :=
  v.ids[p]?

/-- Vocabulary lookup errors (spec §7 taxonomy). -/
inductive VocabError where
  | UnknownIdentifier
  | OutOfRange
deriving DecidableEq, Repr

/-- Missing-identifier policy for a single lookup call (spec §4.1):
either fail, or substitute a caller-chosen sentinel. -/
inductive MissingPolicy where
  | fail
  | sentinel (s : Int)
deriving DecidableEq, Repr

/-- Modelled from the spec: `position_of` with a per-call missing policy,
as used by consumers (`number(id, missing=...)` in the k-NN scorer). -/
def Vocabulary.numberWith (v : Vocabulary) (i : Int) (m : MissingPolicy) :
    Except VocabError Int :=
  match v.positionOf i with
  | some p => .ok (p : Int)
  | none =>
    match m with
    | .fail => .error .UnknownIdentifier
    | .sentinel s => .ok s

/-- Registering only ever appends to the identifier sequence. -/
theorem Vocabulary.register_append (v : Vocabulary) (new : List Int) :
    ∃ t, (v.register new).ids = v.ids ++ t := by
  unfold Vocabulary.register
  induction new generalizing v with
  | nil => exact ⟨[], by simp⟩
  | cons x xs ih =>
    simp only [List.foldl_cons]
    by_cases hx : x ∈ v.ids
    · simpa [hx] using ih v
    · obtain ⟨t, ht⟩ := ih ⟨v.ids ++ [x]⟩
      exact ⟨[x] ++ t, by simp [hx] at ht ⊢; simpa [List.append_assoc] using ht⟩

/-- C3: for every identifier registered into a Vocabulary, `position_of`
returns the same value after any later registration, and
`id_at (position_of id) = id`; the positions assigned to the registered
identifiers, in first-seen order, are exactly the contiguous integers
`0..n-1`. -/
theorem vocabulary_position_stability (v : Vocabulary) (i : Int)
    (hmem : i ∈ v.ids) (hnd : v.ids.Nodup) (xs : List Int) :
    (v.register xs).positionOf i = v.positionOf i ∧
    (∃ p, v.positionOf i = some p ∧ p < v.size ∧ v.idAt p = some i) ∧
    v.ids.map v.positionOf = (List.range v.size).map some := by
  refine ⟨?_, ?_, ?_⟩
  · obtain ⟨t, ht⟩ := v.register_append xs
    have hmem' : i ∈ (v.register xs).ids := by
      rw [ht]; exact List.mem_append_left _ hmem
    simp only [Vocabulary.positionOf, hmem, hmem', if_pos, ht]
    rw [List.indexOf_append_of_mem hmem]
    simp [List.mem_append_left _ hmem]
  · refine ⟨v.ids.indexOf i, by simp [Vocabulary.positionOf, hmem], ?_, ?_⟩
    · exact List.indexOf_lt_length.mpr hmem
    · have hlt : v.ids.indexOf i < v.ids.length := List.indexOf_lt_length.mpr hmem
      simp only [Vocabulary.idAt]
      rw [List.getElem?_eq_getElem hlt]
      exact congrArg some (List.getElem_indexOf hlt)
  · apply List.ext_getElem
    · simp [Vocabulary.size]
    · intro j h1 h2
      have hj : j < v.ids.length := by simpa using h1
      have hjm : v.ids[j] ∈ v.ids := List.getElem_mem hj
      simp only [List.getElem_map, List.getElem_range, Vocabulary.positionOf,
        hjm, if_pos]
      exact congrArg some (List.indexOf_getElem hnd j hj)

/-- Closed instance of `vocabulary_position_stability` on a concrete
vocabulary. -/
theorem vocabulary_position_stability_witness :
    ((Vocabulary.mk [5, 3, 9]).register [7]).positionOf 3 =
      (Vocabulary.mk [5, 3, 9]).positionOf 3 ∧
    (∃ p, (Vocabulary.mk [5, 3, 9]).positionOf 3 = some p ∧
      p < (Vocabulary.mk [5, 3, 9]).size ∧
      (Vocabulary.mk [5, 3, 9]).idAt p = some 3) ∧
    (Vocabulary.mk [5, 3, 9]).ids.map (Vocabulary.mk [5, 3, 9]).positionOf =
      (List.range (Vocabulary.mk [5, 3, 9]).size).map some :=
  vocabulary_position_stability ⟨[5, 3, 9]⟩ 3 (by decide) (by decide) [7]

/-- C7: looking up an unregistered identifier fails with
`UnknownIdentifier` under the failing policy and returns the
caller-specified sentinel under the sentinel policy; the policy is an
argument of the call. -/
theorem vocabulary_missing_policy (v : Vocabulary) (i : Int)
    (h : i ∉ v.ids) :
    v.numberWith i .fail = .error .UnknownIdentifier ∧
    ∀ s, v.numberWith i (.sentinel s) = .ok s := by
  constructor <;>
    simp [Vocabulary.numberWith, Vocabulary.positionOf, h]

/-- Closed instance of `vocabulary_missing_policy` on a concrete
vocabulary and identifier. -/
theorem vocabulary_missing_policy_witness :
    (Vocabulary.mk [1, 2]).numberWith 5 .fail =
      .error .UnknownIdentifier ∧
    ∀ s, (Vocabulary.mk [1, 2]).numberWith 5 (.sentinel s) = .ok s :=
  vocabulary_missing_policy ⟨[1, 2]⟩ 5 (by decide)

/-! ## Attribute store and dataset builder

Modelled from the spec: the `DatasetBuilder`, `AttributeSchema` and
`Dataset` implementations are not among the source files; only their
tests (`tests/data/test_builder_attributes.py`) and the spec (§3, §4.2,
§4.3) describe them.  We model a single entity type with one vocabulary;
attribute values are rationals (the numeric kind). -/

/-- The four attribute storage layouts (spec §3). -/
inductive AttrLayout where
  | scalar
  | ragged
  | vector
  | sparse
deriving DecidableEq, Repr

/-- One storage slot of an attribute column: null, a scalar, a
variable-length sequence (LIST layout), a fixed-width dense array
(VECTOR), or a set of (dimension position, value) pairs (SPARSE). -/
inductive Cell where
  | null
  | scalarV (x : ℚ)
  | listV (xs : List ℚ)
  | vecV (xs : List ℚ)
  | sparseV (ps : List (Nat × ℚ))
deriving DecidableEq, Repr

/-- Modelled from the spec: an attribute's schema entry plus its storage
column (one cell per vocabulary position). -/
structure Attribute where
  layout : AttrLayout
  width : Option Nat
  dimNames : Option (List String)
  column : List Cell
deriving DecidableEq, Repr

/-- Builder-time error taxonomy (spec §4.2, §7). -/
inductive DataError where
  | UnknownEntity
  | DuplicateAttribute
  | DimensionMismatch
  | UnsupportedValueType
deriving DecidableEq, Repr

/-- A compressed-sparse-row structure: row pointers, column indices,
values, and an explicit column count (as in `scipy.sparse.csr_array`). -/
structure CSR where
  indptr : List Nat
  colind : List Nat
  values : List ℚ
  ncols : Nat
deriving DecidableEq, Repr

/-- Number of rows encoded by a CSR structure. -/
def CSR.nrows (c : CSR) : Nat := c.indptr.length - 1

/-- Number of stored non-zeros. -/
def CSR.nnz (c : CSR) : Nat := c.values.length

/-- Row `j` of a CSR structure, as (column, value) pairs. -/
def CSR.row (c : CSR) (j : Nat) : List (Nat × ℚ) :=
  let s := c.indptr.getD j 0
  let e := c.indptr.getD (j + 1) 0
  ((c.colind.zip c.values).drop s).take (e - s)

/-- Well-formedness of a CSR structure: the row-pointer array is
non-empty, starts at 0, is monotone, ends at `nnz`, and the column-index
array is as long as the value array. -/
def CSR.WF (c : CSR) : Prop :=
  c.indptr.head? = some 0 ∧
  c.indptr.Chain' (· ≤ ·) ∧
  c.indptr.getLast? = some c.values.length ∧
  c.colind.length = c.values.length

instance (c : CSR) : Decidable c.WF :=
  inferInstanceAs (Decidable (c.indptr.head? = some 0 ∧
    c.indptr.Chain' (· ≤ ·) ∧
    c.indptr.getLast? = some c.values.length ∧
    c.colind.length = c.values.length))

/-- Modelled from the spec: the mutable dataset builder for one entity
type — a vocabulary plus named attribute columns. -/
structure DatasetBuilder where
  vocab : Vocabulary
  attrs : List (String × Attribute)
deriving DecidableEq, Repr

/-- The empty builder. -/
def DatasetBuilder.empty : DatasetBuilder := ⟨Vocabulary.empty, []⟩

/-- Pad a column with nulls up to the (grown) vocabulary size. -/
def padColumn (col : List Cell) (n : Nat) : List Cell :=
  col ++ List.replicate (n - col.length) .null

/-- Modelled from the spec: `add_entities` registers identifiers into
the vocabulary (idempotent re-registration); existing columns keep one
slot per vocabulary position, new positions holding null. -/
def DatasetBuilder.addEntities (b : DatasetBuilder) (ids : List Int) :
    DatasetBuilder :=
  let v := b.vocab.register ids
  ⟨v, b.attrs.map (fun p => (p.1, { p.2 with column := padColumn p.2.column v.size }))⟩

/-- Modelled from the spec: `add_scalar_attribute` with identifier-keyed
data; values are aligned to vocabulary positions, positions with no
supplied value are null. -/
def DatasetBuilder.addScalarAttribute (b : DatasetBuilder) (name : String)
    (data : List (Int × ℚ)) : Except DataError DatasetBuilder :=
  if b.attrs.any (fun p => p.1 = name) then .error .DuplicateAttribute
  else if data.all (fun p => p.1 ∈ b.vocab.ids) then
    let col := b.vocab.ids.map (fun v =>
      match data.find? (fun p => p.1 = v) with
      | some p => Cell.scalarV p.2
      | none => Cell.null)
    .ok ⟨b.vocab, b.attrs ++ [(name, ⟨.scalar, none, none, col⟩)]⟩
  else .error .UnknownEntity

/-- Modelled from the spec: `add_list_attribute`, like scalar but each
value is an ordered sequence (empty sequence distinct from null). -/
def DatasetBuilder.addListAttribute (b : DatasetBuilder) (name : String)
    (data : List (Int × List ℚ)) : Except DataError DatasetBuilder :=
  if b.attrs.any (fun p => p.1 = name) then .error .DuplicateAttribute
  else if data.all (fun p => p.1 ∈ b.vocab.ids) then
    let col := b.vocab.ids.map (fun v =>
      match data.find? (fun p => p.1 = v) with
      | some p => Cell.listV p.2
      | none => Cell.null)
    .ok ⟨b.vocab, b.attrs ++ [(name, ⟨.ragged, none, none, col⟩)]⟩
  else .error .UnknownEntity

/-- The `matrix` argument of `add_vector_attribute`: a dense 2-D block
or a compressed-sparse-row structure (spec §4.2). -/
inductive MatrixInput where
  | dense (rows : List (List ℚ))
  | sparseCSR (c : CSR)
deriving DecidableEq, Repr

/-- The cell stored for identifier `v` by a dense `add_vector_attribute`
call: the matrix row aligned with `v` in `ids`, or null. -/
def denseCellFor (ids : List Int) (rows : List (List ℚ)) (v : Int) : Cell :=
  match (ids.zip rows).find? (fun p => p.1 = v) with
  | some p => Cell.vecV p.2
  | none => Cell.null

/-- The cell stored for identifier `v` by a sparse `add_vector_attribute`
call: the CSR row aligned with `v` in `ids`, or the empty row. -/
def sparseCellFor (ids : List Int) (c : CSR) (v : Int) : Cell :=
  match (ids.zip (List.range ids.length)).find? (fun p => p.1 = v) with
  | some p => Cell.sparseV (c.row p.2)
  | none => Cell.sparseV []

/-- Modelled from the spec: `add_vector_attribute(type, name, ids,
matrix, dim_names)` — `ids` selects which vocabulary positions receive a
row; a dense block declares a VECTOR attribute, a CSR structure declares
SPARSE; rows not present in `ids` are null (VECTOR) or empty (SPARSE);
`dim_names` must match the width, and every dense row must have exactly
`width` entries, else `DimensionMismatch`. -/
def DatasetBuilder.addVectorAttribute (b : DatasetBuilder) (name : String)
    (ids : List Int) (m : MatrixInput) (dimNames : Option (List String)) :
    Except DataError DatasetBuilder :=
  if b.attrs.any (fun p => p.1 = name) then .error .DuplicateAttribute
  else if ids.all (fun i => i ∈ b.vocab.ids) then
    match m with
    | .dense rows =>
      let w := (rows.headD []).length
      if rows.length ≠ ids.length then .error .DimensionMismatch
      else if (dimNames.map List.length).getD w ≠ w then
        .error .DimensionMismatch
      else if rows.all (fun r => r.length = w) then
        let col := b.vocab.ids.map (denseCellFor ids rows)
        .ok ⟨b.vocab, b.attrs ++ [(name, ⟨.vector, some w, dimNames, col⟩)]⟩
      else .error .DimensionMismatch
    | .sparseCSR c =>
      if c.nrows ≠ ids.length then .error .DimensionMismatch
      else if (dimNames.map List.length).getD c.ncols ≠ c.ncols then
        .error .DimensionMismatch
      else
        let col := b.vocab.ids.map (sparseCellFor ids c)
        .ok ⟨b.vocab, b.attrs ++ [(name, ⟨.sparse, some c.ncols, dimNames, col⟩)]⟩
  else .error .UnknownEntity

/-- Modelled from the spec: an immutable Dataset is the frozen snapshot
of the builder's vocabulary and columns (`build()`). -/
structure Dataset where
  vocab : Vocabulary
  attrs : List (String × Attribute)
deriving DecidableEq, Repr

/-- Modelled from the spec: `build()` freezes the accumulated state into
an immutable Dataset; the builder stays usable afterwards. -/
def DatasetBuilder.build (b : DatasetBuilder) : Dataset :=
  ⟨b.vocab, b.attrs⟩

/-! ### Export surface (spec §4.3) -/

/-- The dense-numeric image of one cell: a vector row maps its entries,
anything else becomes a row of `width` not-a-numbers (`none`). -/
def denseCellOut (w : Nat) (c : Cell) : List (Option ℚ) :=
  match c with
  | .vecV xs => xs.map some
  | _ => List.replicate w none

/-- Modelled from the spec: `.dense_numeric()` for a VECTOR attribute —
a dense block indexed by vocabulary position; null rows are filled with
not-a-number, modelled as `none`. -/
def Attribute.denseNumeric (a : Attribute) : List (List (Option ℚ)) :=
  a.column.map (denseCellOut (a.width.getD 0))

/-- Number of finite (non-NaN) entries of a dense numeric block. -/
def finiteCount (m : List (List (Option ℚ))) : Nat :=
  (m.map (fun r => r.countP (fun o => o.isSome))).sum

/-- Number of not-a-number entries of a dense numeric block. -/
def nanCount (m : List (List (Option ℚ))) : Nat :=
  (m.map (fun r => r.countP (fun o => o.isNone))).sum

/-- The omit-policy table row for one (identifier, cell) pair: kept only
when a vector value is present. -/
def omitRow (p : Int × Cell) : Option (Int × List ℚ) :=
  match p.2 with
  | .vecV xs => some (p.1, xs)
  | _ => none

/-- Modelled from the spec: `.labeled_table(omit)` for a VECTOR
attribute — an identifier-indexed table that drops rows with no value
entirely. -/
def labeledTableOmit (v : Vocabulary) (a : Attribute) :
    List (Int × List ℚ) :=
  (v.ids.zip a.column).filterMap omitRow

/-- The sparse pairs stored in one cell (empty for non-sparse cells). -/
def sparsePairs (c : Cell) : List (Nat × ℚ) :=
  match c with
  | .sparseV ps => ps
  | _ => []

/-- Modelled from the spec: `.sparse_matrix()` for a SPARSE attribute —
a compressed-sparse-row structure over `(n_entities × width)` rebuilt
from the per-row pair lists. -/
def Attribute.sparseMatrix (a : Attribute) : CSR :=
  let rows := a.column.map sparsePairs
  ⟨List.scanl (fun acc r => acc + r.length) 0 rows,
   rows.flatten.map Prod.fst,
   rows.flatten.map Prod.snd,
   a.width.getD 0⟩

/-! ### Builder operation sequences -/

/-- A builder mutation, for reasoning about reachable builder states. -/
inductive BuildOp where
  | entities (ids : List Int)
  | scalarAttr (name : String) (data : List (Int × ℚ))
  | listAttr (name : String) (data : List (Int × List ℚ))
  | vectorAttr (name : String) (ids : List Int) (m : MatrixInput)
      (dimNames : Option (List String))
deriving DecidableEq, Repr

/-- Apply one builder operation; a failing call leaves the builder
unchanged (fail-fast, spec §7). -/
def DatasetBuilder.applyOp (b : DatasetBuilder) : BuildOp → DatasetBuilder
  | .entities ids => b.addEntities ids
  | .scalarAttr n d => ((b.addScalarAttribute n d).toOption).getD b
  | .listAttr n d => ((b.addListAttribute n d).toOption).getD b
  | .vectorAttr n ids m dn => ((b.addVectorAttribute n ids m dn).toOption).getD b

/-- The builder reached from the empty builder by a sequence of
operations. -/
def runOps (ops : List BuildOp) : DatasetBuilder :=
  ops.foldl DatasetBuilder.applyOp DatasetBuilder.empty

/-- The last element of a list with one element appended. -/
theorem getLast?_append_single {α : Type _} (l : List α) (x : α) :
    (l ++ [x]).getLast? = some x := by
  rw [List.getLast?_append_cons]; rfl

/-- C6: `add_vector_attribute` declares layout VECTOR for a dense 2-D
block and layout SPARSE for a compressed-sparse-row structure. -/
theorem addVector_layout (b : DatasetBuilder) (name : String)
    (ids : List Int) (m : MatrixInput) (ns : Option (List String))
    (b' : DatasetBuilder)
    (h : b.addVectorAttribute name ids m ns = .ok b') :
    ∃ a, b'.attrs.getLast? = some (name, a) ∧
      a.layout = (match m with
        | .dense _ => AttrLayout.vector
        | .sparseCSR _ => AttrLayout.sparse) := by
  cases m with
  | dense rows =>
    simp only [DatasetBuilder.addVectorAttribute] at h
    split_ifs at h
    all_goals first
      | exact Except.noConfusion h
      | (rw [Except.ok.injEq] at h
         subst h
         exact ⟨_, getLast?_append_single _ _, rfl⟩)
  | sparseCSR c =>
    simp only [DatasetBuilder.addVectorAttribute] at h
    split_ifs at h
    all_goals first
      | exact Except.noConfusion h
      | (rw [Except.ok.injEq] at h
         subst h
         exact ⟨_, getLast?_append_single _ _, rfl⟩)

/-- Closed instances of `addVector_layout`: a concrete dense call yields
a VECTOR attribute, a concrete CSR call yields a SPARSE attribute. -/
theorem addVector_layout_witness :
    (∃ a, (DatasetBuilder.mk ⟨[1, 2]⟩
        [("e", ⟨.vector, some 1, none, [.vecV [1], .vecV [2]]⟩)]).attrs.getLast?
        = some ("e", a) ∧ a.layout = AttrLayout.vector) ∧
    (∃ a, (DatasetBuilder.mk ⟨[1]⟩
        [("g", ⟨.sparse, some 2, none, [.sparseV [(0, 3)]]⟩)]).attrs.getLast?
        = some ("g", a) ∧ a.layout = AttrLayout.sparse) :=
  ⟨addVector_layout ⟨⟨[1, 2]⟩, []⟩ "e" [1, 2] (.dense [[1], [2]]) none _ rfl,
   addVector_layout ⟨⟨[1]⟩, []⟩ "g" [1] (.sparseCSR ⟨[0, 1], [0], [3], 2⟩) none _ rfl⟩

/-- C5: adding a VECTOR attribute whose rows have inconsistent widths
fails with `DimensionMismatch`, and applying the failed operation leaves
the builder state unchanged. -/
theorem addVector_ragged_rejected (b : DatasetBuilder) (name : String)
    (ids : List Int) (rows : List (List ℚ)) (ns : Option (List String))
    (hfresh : (b.attrs.any fun p => p.1 = name) = false)
    (hknown : (ids.all fun i => i ∈ b.vocab.ids) = true)
    (hragged : ∃ r ∈ rows, r.length ≠ (rows.headD []).length) :
    b.addVectorAttribute name ids (.dense rows) ns =
      .error .DimensionMismatch ∧
    b.applyOp (.vectorAttr name ids (.dense rows) ns) = b := by
  have herr : b.addVectorAttribute name ids (.dense rows) ns =
      .error .DimensionMismatch := by
    simp only [DatasetBuilder.addVectorAttribute]
    rw [if_neg (by simp [hfresh]), if_pos hknown]
    split_ifs with h1 h2 h3
    any_goals rfl
    exfalso
    obtain ⟨r, hr, hne⟩ := hragged
    rw [List.all_eq_true] at h3
    exact hne (by simpa using h3 r hr)
  refine ⟨herr, ?_⟩
  simp [DatasetBuilder.applyOp, herr, Except.toOption]

/-- Registration never shrinks the vocabulary. -/
theorem register_size_le (v : Vocabulary) (xs : List Int) :
    v.size ≤ (v.register xs).size := by
  obtain ⟨t, ht⟩ := v.register_append xs
  simp [Vocabulary.size, ht]

/-- Padding a short column yields exactly the requested length. -/
theorem padColumn_length (col : List Cell) (n : Nat) (h : col.length ≤ n) :
    (padColumn col n).length = n := by
  simp [padColumn]; omega

/-- The size-consistency invariant: every attribute column has one slot
per vocabulary position. -/
def SizeInv (b : DatasetBuilder) : Prop :=
  ∀ p ∈ b.attrs, p.2.column.length = b.vocab.size

theorem sizeInv_empty : SizeInv DatasetBuilder.empty := by
  intro p hp
  simp [DatasetBuilder.empty] at hp

/-- A successful `add_scalar_attribute` appends one attribute whose
column is vocabulary-sized, leaving the vocabulary unchanged. -/
theorem addScalar_ok (b : DatasetBuilder) (n : String)
    (d : List (Int × ℚ)) (b2 : DatasetBuilder)
    (h : b.addScalarAttribute n d = .ok b2) :
    b2.vocab = b.vocab ∧ ∃ a, b2.attrs = b.attrs ++ [(n, a)] ∧
      a.column.length = b.vocab.size := by
  simp only [DatasetBuilder.addScalarAttribute] at h
  split_ifs at h
  all_goals first
    | exact Except.noConfusion h
    | (rw [Except.ok.injEq] at h
       subst h
       exact ⟨rfl, _, rfl, by simp [Vocabulary.size]⟩)

/-- A successful `add_list_attribute` appends one attribute whose column
is vocabulary-sized, leaving the vocabulary unchanged. -/
theorem addList_ok (b : DatasetBuilder) (n : String)
    (d : List (Int × List ℚ)) (b2 : DatasetBuilder)
    (h : b.addListAttribute n d = .ok b2) :
    b2.vocab = b.vocab ∧ ∃ a, b2.attrs = b.attrs ++ [(n, a)] ∧
      a.column.length = b.vocab.size := by
  simp only [DatasetBuilder.addListAttribute] at h
  split_ifs at h
  all_goals first
    | exact Except.noConfusion h
    | (rw [Except.ok.injEq] at h
       subst h
       exact ⟨rfl, _, rfl, by simp [Vocabulary.size]⟩)

/-- A successful `add_vector_attribute` appends one attribute whose
column is vocabulary-sized, leaving the vocabulary unchanged. -/
theorem addVector_ok (b : DatasetBuilder) (n : String) (ids : List Int)
    (m : MatrixInput) (dn : Option (List String)) (b2 : DatasetBuilder)
    (h : b.addVectorAttribute n ids m dn = .ok b2) :
    b2.vocab = b.vocab ∧ ∃ a, b2.attrs = b.attrs ++ [(n, a)] ∧
      a.column.length = b.vocab.size := by
  cases m with
  | dense rows =>
    simp only [DatasetBuilder.addVectorAttribute] at h
    split_ifs at h
    all_goals first
      | exact Except.noConfusion h
      | (rw [Except.ok.injEq] at h
         subst h
         exact ⟨rfl, _, rfl, by simp [Vocabulary.size]⟩)
  | sparseCSR c =>
    simp only [DatasetBuilder.addVectorAttribute] at h
    split_ifs at h
    all_goals first
      | exact Except.noConfusion h
      | (rw [Except.ok.injEq] at h
         subst h
         exact ⟨rfl, _, rfl, by simp [Vocabulary.size]⟩)

/-- The size invariant is preserved after appending one
vocabulary-sized attribute. -/
theorem sizeInv_of_ok (b b2 : DatasetBuilder)
    (h : SizeInv b)
    (hshape : b2.vocab = b.vocab ∧ ∃ a, b2.attrs = b.attrs ++ [(n, a)] ∧
      a.column.length = b.vocab.size) : SizeInv b2 := by
  obtain ⟨hv, a, hattrs, hlen⟩ := hshape
  intro p hp
  rw [hattrs] at hp
  rw [hv]
  rcases List.mem_append.mp hp with hq | hq
  · exact h p hq
  · simp only [List.mem_singleton] at hq
    subst hq
    exact hlen

theorem sizeInv_applyOp (b : DatasetBuilder) (op : BuildOp)
    (h : SizeInv b) : SizeInv (b.applyOp op) := by
  cases op with
  | entities ids =>
    intro p hp
    simp only [DatasetBuilder.applyOp, DatasetBuilder.addEntities] at hp ⊢
    obtain ⟨q, hq, rfl⟩ := List.mem_map.mp hp
    exact padColumn_length _ _ (by rw [h q hq]; exact register_size_le _ _)
  | scalarAttr n d =>
    simp only [DatasetBuilder.applyOp]
    cases hr : b.addScalarAttribute n d with
    | error e => simpa [Except.toOption] using h
    | ok b2 =>
      simp only [Except.toOption, Option.getD_some]
      exact sizeInv_of_ok b b2 h (addScalar_ok b n d b2 hr)
  | listAttr n d =>
    simp only [DatasetBuilder.applyOp]
    cases hr : b.addListAttribute n d with
    | error e => simpa [Except.toOption] using h
    | ok b2 =>
      simp only [Except.toOption, Option.getD_some]
      exact sizeInv_of_ok b b2 h (addList_ok b n d b2 hr)
  | vectorAttr n ids m dn =>
    simp only [DatasetBuilder.applyOp]
    cases hr : b.addVectorAttribute n ids m dn with
    | error e => simpa [Except.toOption] using h
    | ok b2 =>
      simp only [Except.toOption, Option.getD_some]
      exact sizeInv_of_ok b b2 h (addVector_ok b n ids m dn b2 hr)

theorem sizeInv_runOps (ops : List BuildOp) : SizeInv (runOps ops) := by
  suffices hgen : ∀ (l : List BuildOp) (b : DatasetBuilder), SizeInv b →
      SizeInv (l.foldl DatasetBuilder.applyOp b) by
    exact hgen ops DatasetBuilder.empty sizeInv_empty
  intro l
  induction l with
  | nil => intro b hb; exact hb
  | cons op rest ih =>
    intro b hb
    exact ih _ (sizeInv_applyOp b op hb)

/-- C4: in every built Dataset, every attribute column has exactly one
slot per owning-vocabulary position, and the slot at position `i` holds
the value supplied for the identifier at vocabulary position `i` (shown
for scalar attributes: the cell at `position_of v` is the value keyed by
`v`). -/
theorem built_dataset_column_alignment :
    (∀ ops : List BuildOp, ∀ p ∈ ((runOps ops).build).attrs,
      p.2.column.length = ((runOps ops).build).vocab.size) ∧
    (∀ (b : DatasetBuilder) (name : String) (data : List (Int × ℚ))
        (b' : DatasetBuilder) (v : Int) (i : Nat) (q : Int × ℚ),
      b.addScalarAttribute name data = .ok b' →
      b.vocab.positionOf v = some i →
      data.find? (fun p => p.1 = v) = some q →
      ∃ a, b'.attrs.getLast? = some (name, a) ∧
        a.column[i]? = some (.scalarV q.2)) := by
  constructor
  · intro ops p hp
    exact sizeInv_runOps ops p hp
  · intro b name data b' v i q hok hpos hfind
    simp only [DatasetBuilder.addScalarAttribute] at hok
    split_ifs at hok with h0 h1
    rw [Except.ok.injEq] at hok
    subst hok
    refine ⟨_, getLast?_append_single _ _, ?_⟩
    simp only [Vocabulary.positionOf] at hpos
    split_ifs at hpos with hv
    rw [Option.some.injEq] at hpos
    subst hpos
    have hlt : b.vocab.ids.indexOf v < b.vocab.ids.length :=
      List.indexOf_lt_length.mpr hv
    rw [List.getElem?_map, List.getElem?_eq_getElem hlt]
    simp only [Option.map_some']
    rw [List.getElem_indexOf hlt, hfind]

/-- Closed instances of `built_dataset_column_alignment`: a concrete
operation sequence whose built columns match the vocabulary size, and a
concrete scalar attribute aligned to a vocabulary position. -/
theorem built_dataset_column_alignment_witness :
    ("x", (⟨AttrLayout.scalar, none, none, [.scalarV 3, .null]⟩ : Attribute)).2.column.length
      = ((runOps [.entities [1, 2], .scalarAttr "x" [(1, 3)]]).build).vocab.size ∧
    ∃ a, (DatasetBuilder.mk ⟨[5, 7]⟩
        [("y", ⟨.scalar, none, none, [.null, .scalarV 4]⟩)]).attrs.getLast?
        = some ("y", a) ∧ a.column[1]? = some (.scalarV (4 : ℚ)) :=
  ⟨built_dataset_column_alignment.1 [.entities [1, 2], .scalarAttr "x" [(1, 3)]]
      ("x", ⟨AttrLayout.scalar, none, none, [.scalarV 3, .null]⟩) (by decide),
   built_dataset_column_alignment.2 ⟨⟨[5, 7]⟩, []⟩ "y" [(7, 4)] _ 7 1 (7, 4)
      rfl (by decide) (by decide)⟩

/-! ### VECTOR export round-trip (C1) -/

/-- Looking up a supplied identifier in the row-aligned pairing finds
its matrix row. -/
theorem find_zip_of_mem {ids : List Int} {rows : List (List ℚ)} {v : Int}
    (hlen : rows.length = ids.length) (hv : v ∈ ids) :
    ∃ r, r ∈ rows ∧
      (ids.zip rows).find? (fun p => p.1 = v) = some (v, r) := by
  have hfst : (ids.zip rows).map Prod.fst = ids :=
    List.map_fst_zip _ _ (le_of_eq hlen.symm)
  have hsome : ((ids.zip rows).find? fun p => p.1 = v).isSome := by
    rw [List.find?_isSome]
    rw [← hfst] at hv
    obtain ⟨p, hp, hpv⟩ := List.mem_map.mp hv
    exact ⟨p, hp, by simp [hpv]⟩
  obtain ⟨p, hp⟩ := Option.isSome_iff_exists.mp hsome
  obtain ⟨p1, p2⟩ := p
  have hpv : p1 = v := by simpa using List.find?_some hp
  subst hpv
  exact ⟨p2, (List.of_mem_zip (List.mem_of_find?_eq_some hp)).2, hp⟩

/-- Looking up an unsupplied identifier in the row-aligned pairing finds
nothing. -/
theorem find_zip_of_not_mem {α : Type _} {ids : List Int} {rows : List α}
    {v : Int} (hv : v ∉ ids) :
    (ids.zip rows).find? (fun p => p.1 = v) = none := by
  rw [List.find?_eq_none]
  intro p hp
  simp only [decide_eq_true_eq]
  intro hpv
  exact hv (hpv ▸ (List.of_mem_zip hp).1)

/-- The dense cell of a supplied identifier is a full matrix row. -/
theorem denseCellFor_mem {ids : List Int} {rows : List (List ℚ)} {v : Int}
    (hlen : rows.length = ids.length) (hv : v ∈ ids) :
    ∃ r, r ∈ rows ∧ denseCellFor ids rows v = Cell.vecV r := by
  obtain ⟨r, hr, hfind⟩ := find_zip_of_mem hlen hv
  exact ⟨r, hr, by simp [denseCellFor, hfind]⟩

/-- The dense cell of an unsupplied identifier is null. -/
theorem denseCellFor_not_mem {ids : List Int} {rows : List (List ℚ)}
    {v : Int} (hv : v ∉ ids) : denseCellFor ids rows v = Cell.null := by
  simp [denseCellFor, find_zip_of_not_mem hv]

theorem countP_isSome_map_some (r : List ℚ) :
    ((r.map some).countP fun o => o.isSome) = r.length := by
  induction r with
  | nil => rfl
  | cons x t ih => simp [List.countP_cons, ih]

theorem countP_isNone_map_some (r : List ℚ) :
    ((r.map some).countP fun o => o.isNone) = 0 := by
  induction r with
  | nil => rfl
  | cons x t ih => simp [List.countP_cons, ih]

theorem countP_isSome_replicate (w : Nat) :
    ((List.replicate w (none : Option ℚ)).countP fun o => o.isSome) = 0 := by
  induction w with
  | zero => rfl
  | succ n ih => simp [List.replicate_succ, List.countP_cons, ih]

theorem countP_isNone_replicate (w : Nat) :
    ((List.replicate w (none : Option ℚ)).countP fun o => o.isNone) = w := by
  induction w with
  | zero => rfl
  | succ n ih => simp [List.replicate_succ, List.countP_cons, ih]

/-- Summing `w` over the members of `ids` counts them `w` times. -/
theorem sum_map_ite (l ids : List Int) (w : Nat) :
    (l.map fun v => if v ∈ ids then w else 0).sum =
      (l.countP fun v => v ∈ ids) * w := by
  induction l with
  | nil => simp
  | cons x t ih =>
    by_cases hx : x ∈ ids
    · simp [List.countP_cons, hx, ih, Nat.add_mul, Nat.add_comm]
    · simp [List.countP_cons, hx, ih]

/-- Summing `w` over the non-members of `ids` counts the rest `w`
times. -/
theorem sum_map_ite_compl (l ids : List Int) (w : Nat) :
    (l.map fun v => if v ∈ ids then 0 else w).sum =
      (l.length - (l.countP fun v => v ∈ ids)) * w := by
  induction l with
  | nil => simp
  | cons x t ih =>
    by_cases hx : x ∈ ids
    · simp [List.countP_cons, hx, ih, Nat.succ_sub_succ]
    · have hle : (t.countP fun v => decide (v ∈ ids)) ≤ t.length :=
        List.countP_le_length _
      simp only [List.map_cons, List.sum_cons, hx, if_false,
        List.countP_cons, decide_eq_true_eq, List.length_cons]
      rw [ih]
      have h1 : t.length + 1 - ((t.countP fun v => decide (v ∈ ids)) + 0) =
          (t.length - (t.countP fun v => decide (v ∈ ids))) + 1 := by omega
      rw [h1, Nat.succ_mul]
      exact Nat.add_comm w _

/-- Dense export of a supplied identifier's cell: all `w` entries
finite. -/
theorem denseOut_counts_mem {ids : List Int} {rows : List (List ℚ)}
    {w : Nat} {v : Int} (hlen : rows.length = ids.length)
    (hw : ∀ r ∈ rows, r.length = w) (hv : v ∈ ids) :
    ((denseCellOut w (denseCellFor ids rows v)).countP fun o => o.isSome) = w ∧
    ((denseCellOut w (denseCellFor ids rows v)).countP fun o => o.isNone) = 0 := by
  obtain ⟨r, hr, hcell⟩ := denseCellFor_mem hlen hv
  rw [hcell]
  constructor
  · simp only [denseCellOut]
    rw [countP_isSome_map_some r, hw r hr]
  · simp only [denseCellOut]
    rw [countP_isNone_map_some r]

/-- Dense export of an unsupplied identifier's cell: all `w` entries
not-a-number. -/
theorem denseOut_counts_not_mem {ids : List Int} {rows : List (List ℚ)}
    {w : Nat} {v : Int} (hv : v ∉ ids) :
    ((denseCellOut w (denseCellFor ids rows v)).countP fun o => o.isSome) = 0 ∧
    ((denseCellOut w (denseCellFor ids rows v)).countP fun o => o.isNone) = w := by
  rw [denseCellFor_not_mem hv]
  simp [denseCellOut, countP_isSome_replicate, countP_isNone_replicate]

/-- The finite entries of the dense export number `w` per supplied
identifier. -/
theorem dense_finiteCount (ids : List Int) (rows : List (List ℚ)) (w : Nat)
    (hlen : rows.length = ids.length) (hw : ∀ r ∈ rows, r.length = w) :
    ∀ l : List Int,
      finiteCount ((l.map (denseCellFor ids rows)).map (denseCellOut w)) =
        (l.countP fun v => v ∈ ids) * w := by
  intro l
  induction l with
  | nil => simp [finiteCount]
  | cons x t ih =>
    simp only [List.map_cons, finiteCount, List.sum_cons] at ih ⊢
    by_cases hx : x ∈ ids
    · rw [(denseOut_counts_mem hlen hw hx).1, ih]
      simp only [List.countP_cons, decide_eq_true_eq, hx, if_true]
      rw [Nat.succ_mul]
      exact Nat.add_comm w _
    · rw [(denseOut_counts_not_mem hx).1, ih]
      simp [List.countP_cons, hx]

/-- The not-a-number entries of the dense export number `w` per
unsupplied identifier. -/
theorem dense_nanCount (ids : List Int) (rows : List (List ℚ)) (w : Nat)
    (hlen : rows.length = ids.length) (hw : ∀ r ∈ rows, r.length = w) :
    ∀ l : List Int,
      nanCount ((l.map (denseCellFor ids rows)).map (denseCellOut w)) =
        (l.length - (l.countP fun v => v ∈ ids)) * w := by
  intro l
  induction l with
  | nil => simp [nanCount]
  | cons x t ih =>
    simp only [List.map_cons, nanCount, List.sum_cons] at ih ⊢
    by_cases hx : x ∈ ids
    · rw [(denseOut_counts_mem hlen hw hx).2, ih]
      simp [List.countP_cons, hx, Nat.succ_sub_succ]
    · have hle : (t.countP fun v => decide (v ∈ ids)) ≤ t.length :=
        List.countP_le_length _
      rw [(denseOut_counts_not_mem hx).2, ih]
      simp only [List.countP_cons, decide_eq_true_eq, hx, if_false,
        List.length_cons]
      have h1 : t.length + 1 - ((t.countP fun v => decide (v ∈ ids)) + 0) =
          (t.length - (t.countP fun v => decide (v ∈ ids))) + 1 := by omega
      rw [h1, Nat.succ_mul]
      exact Nat.add_comm w _

/-- The identifier column of the omit-policy labeled table is the
vocabulary filtered to the supplied identifiers. -/
theorem table_map_fst (ids : List Int) (rows : List (List ℚ))
    (hlen : rows.length = ids.length) :
    ∀ l : List Int,
      (((l.zip (l.map (denseCellFor ids rows))).filterMap omitRow).map
        Prod.fst) = l.filter (fun v => v ∈ ids) := by
  intro l
  induction l with
  | nil => simp
  | cons x t ih =>
    by_cases hx : x ∈ ids
    · obtain ⟨r, hr, hcell⟩ := denseCellFor_mem hlen hx
      simp only [List.map_cons, List.zip_cons_cons, List.filterMap_cons,
        hcell, omitRow]
      simp [List.filter_cons, hx, ih]
    · have hcell : denseCellFor ids rows x = Cell.null := denseCellFor_not_mem hx
      simp only [List.map_cons, List.zip_cons_cons, List.filterMap_cons,
        hcell, omitRow]
      simp [List.filter_cons, hx, ih]

/-- C1: building a VECTOR attribute from width-`w` rows for distinct
registered identifiers `ids`, `.dense_numeric()` is a block with one
width-`w` row per vocabulary position, holding exactly `#ids · w` finite
entries with every remaining entry not-a-number, and
`.labeled_table(omit)` has exactly `#ids` rows whose identifiers are a
permutation of the supplied identifiers. -/
theorem vector_export_roundtrip (b : DatasetBuilder) (name : String)
    (ids : List Int) (rows : List (List ℚ)) (w : Nat) (b' : DatasetBuilder)
    (hnd : b.vocab.ids.Nodup) (hidnd : ids.Nodup)
    (hlen : rows.length = ids.length)
    (hw : ∀ r ∈ rows, r.length = w) (hne : rows ≠ [])
    (hok : b.addVectorAttribute name ids (.dense rows) none = .ok b') :
    ∃ a, b'.attrs.getLast? = some (name, a) ∧
      a.denseNumeric.length = b.vocab.size ∧
      (∀ r ∈ a.denseNumeric, r.length = w) ∧
      finiteCount a.denseNumeric = ids.length * w ∧
      nanCount a.denseNumeric = (b.vocab.size - ids.length) * w ∧
      (labeledTableOmit b.vocab a).length = ids.length ∧
      ((labeledTableOmit b.vocab a).map Prod.fst).Perm ids := by
  have hww : (rows.headD []).length = w := by
    cases rows with
    | nil => exact absurd rfl hne
    | cons r0 t => exact hw r0 (by simp)
  simp only [DatasetBuilder.addVectorAttribute] at hok
  rw [hww] at hok
  split_ifs at hok with h0 h1 h2 h3 h4
  rw [Except.ok.injEq] at hok
  subst hok
  have hidsub : ∀ v ∈ ids, v ∈ b.vocab.ids := by
    intro v hv
    simpa using List.all_eq_true.mp h1 v hv
  have hfilnd : (b.vocab.ids.filter fun v => decide (v ∈ ids)).Nodup :=
    hnd.filter _
  have htof : (b.vocab.ids.filter fun v => decide (v ∈ ids)).toFinset =
      ids.toFinset := by
    apply List.toFinset.ext
    intro x
    simp only [List.mem_toFinset, List.mem_filter, decide_eq_true_eq]
    exact ⟨fun hx => hx.2, fun hx => ⟨hidsub x hx, hx⟩⟩
  have hperm : (b.vocab.ids.filter fun v => decide (v ∈ ids)).Perm ids :=
    List.perm_of_nodup_nodup_toFinset_eq hfilnd hidnd htof
  have hcount : (b.vocab.ids.countP fun v => decide (v ∈ ids)) =
      ids.length := by
    rw [List.countP_eq_length_filter]
    exact hperm.length_eq
  have htab : (labeledTableOmit b.vocab
      ⟨.vector, some w, none,
        b.vocab.ids.map (denseCellFor ids rows)⟩).map Prod.fst =
      b.vocab.ids.filter (fun v => v ∈ ids) := by
    simpa [labeledTableOmit] using table_map_fst ids rows hlen b.vocab.ids
  refine ⟨⟨.vector, some w, none, b.vocab.ids.map (denseCellFor ids rows)⟩,
    getLast?_append_single _ _, ?_, ?_, ?_, ?_, ?_, ?_⟩
  · simp [Attribute.denseNumeric, Vocabulary.size]
  · intro r hr
    simp only [Attribute.denseNumeric, Option.getD_some, List.map_map,
      List.mem_map, Function.comp] at hr
    obtain ⟨v, hv, rfl⟩ := hr
    by_cases hvi : v ∈ ids
    · obtain ⟨rr, hrr, hcell⟩ := denseCellFor_mem hlen hvi
      rw [hcell]
      simp [denseCellOut, hw rr hrr]
    · rw [denseCellFor_not_mem hvi]
      simp [denseCellOut]
  · simp only [Attribute.denseNumeric, Option.getD_some]
    rw [dense_finiteCount ids rows w hlen hw b.vocab.ids, hcount]
  · simp only [Attribute.denseNumeric, Option.getD_some]
    rw [dense_nanCount ids rows w hlen hw b.vocab.ids, hcount]
    rfl
  · have h6 := congrArg List.length htab
    rw [List.length_map] at h6
    rw [h6]
    exact hperm.length_eq
  · rw [htab]
    exact hperm

/-- Closed instance of `vector_export_roundtrip` on a concrete builder
and matrix. -/
theorem vector_export_roundtrip_witness :
    ∃ a, (DatasetBuilder.mk ⟨[1, 2, 3]⟩
        [("e", ⟨.vector, some 2, none,
          [.vecV [7, 8], .null, .vecV [5, 6]]⟩)]).attrs.getLast?
        = some ("e", a) ∧
      a.denseNumeric.length = (Vocabulary.mk [1, 2, 3]).size ∧
      (∀ r ∈ a.denseNumeric, r.length = 2) ∧
      finiteCount a.denseNumeric = ([3, 1] : List Int).length * 2 ∧
      nanCount a.denseNumeric =
        ((Vocabulary.mk [1, 2, 3]).size - ([3, 1] : List Int).length) * 2 ∧
      (labeledTableOmit ⟨[1, 2, 3]⟩ a).length = ([3, 1] : List Int).length ∧
      ((labeledTableOmit ⟨[1, 2, 3]⟩ a).map Prod.fst).Perm [3, 1] :=
  vector_export_roundtrip ⟨⟨[1, 2, 3]⟩, []⟩ "e" [3, 1] [[5, 6], [7, 8]] 2 _
    (by decide) (by decide) rfl (by decide) (by decide) rfl

/-! ### SPARSE export round-trip (C2) -/

/-- Successive differences of a row-pointer array. -/
def diffs (l : List Nat) : List Nat :=
  (l.zip l.tail).map (fun p => p.2 - p.1)

/-- Scanning the differences of a monotone list rebuilds the list. -/
theorem scanl_add_diffs : ∀ (ps : List Nat) (a : Nat),
    (a :: ps).Chain' (· ≤ ·) →
    List.scanl (fun x d => x + d) a (diffs (a :: ps)) = a :: ps := by
  intro ps
  induction ps with
  | nil => intro a _; rfl
  | cons b t ih =>
    intro a hc
    have hab : a ≤ b := hc.rel_head
    have h2 : a + (b - a) = b := Nat.add_sub_cancel' hab
    show List.scanl _ a ((b - a) :: diffs (b :: t)) = a :: b :: t
    simp only [List.scanl]
    rw [h2]
    exact congrArg (a :: ·) (ih b hc.tail)

/-- The differences of a monotone list sum to last minus first. -/
theorem sum_diffs : ∀ (ps : List Nat) (a : Nat),
    (a :: ps).Chain' (· ≤ ·) →
    a + (diffs (a :: ps)).sum = (a :: ps).getLast (by simp) := by
  intro ps
  induction ps with
  | nil => intro a _; simp [diffs]
  | cons b t ih =>
    intro a hc
    have hab : a ≤ b := hc.rel_head
    show a + ((b - a) :: diffs (b :: t)).sum = _
    rw [List.sum_cons, List.getLast_cons (by simp)]
    rw [← ih b hc.tail]
    omega

/-- Row `j` of a well-formed CSR structure has the length recorded by
its row pointers. -/
theorem csr_row_length (c : CSR) (hWF : c.WF) (j : Nat)
    (hj : j < c.nrows) :
    (c.row j).length = c.indptr.getD (j + 1) 0 - c.indptr.getD j 0 := by
  obtain ⟨hhead, hchain, hlast, hclen⟩ := hWF
  have hnn : c.indptr ≠ [] := by
    intro h
    rw [h] at hhead
    exact Option.noConfusion hhead
  have hlen1 : 0 < c.indptr.length := List.length_pos.mpr hnn
  have hj1 : j + 1 < c.indptr.length := by
    simp only [CSR.nrows] at hj
    omega
  have hj0 : j < c.indptr.length := by omega
  have hpw : c.indptr.Pairwise (· ≤ ·) := List.chain'_iff_pairwise.mp hchain
  have hmono : ∀ i k (hik : i ≤ k) (hk : k < c.indptr.length),
      c.indptr.get ⟨i, Nat.lt_of_le_of_lt hik hk⟩ ≤ c.indptr.get ⟨k, hk⟩ := by
    intro i k hik hk
    rcases Nat.eq_or_lt_of_le hik with rfl | hlt
    · exact le_refl _
    · exact List.pairwise_iff_get.mp hpw ⟨i, Nat.lt_of_le_of_lt hik hk⟩ ⟨k, hk⟩ hlt
  have hlastE : c.indptr.getLast hnn = c.values.length := by
    rw [List.getLast?_eq_getLast_of_ne_nil hnn] at hlast
    exact Option.some.inj hlast
  have hlast' : c.indptr.get ⟨c.indptr.length - 1, by omega⟩ = c.values.length := by
    rw [← hlastE]
    rw [List.getLast_eq_getElem _ hnn]
    rfl
  have he_le : c.indptr[j + 1] ≤ c.values.length := by
    rw [← hlast']
    exact hmono (j + 1) (c.indptr.length - 1) (by omega) (by omega)
  have hs_le : c.indptr.get ⟨j, hj0⟩ ≤ c.indptr.get ⟨j + 1, hj1⟩ :=
    hmono j (j + 1) (by omega) hj1
  have hzl : (c.colind.zip c.values).length = c.values.length := by
    rw [List.length_zip, hclen, Nat.min_self]
  simp only [CSR.row]
  rw [List.getD_eq_getElem c.indptr 0 hj1, List.getD_eq_getElem c.indptr 0 hj0]
  rw [List.length_take, List.length_drop, hzl]
  omega

/-- Finding an identifier of a duplicate-free list in its pairing with
`range'` yields its index (shifted by the start). -/
theorem find_zip_range_aux {ids : List Int} (hnd : ids.Nodup) :
    ∀ (s j : Nat) (hj : j < ids.length),
      ((ids.zip (List.range' s ids.length)).find? fun p => p.1 = ids[j]) =
        some (ids[j], s + j) := by
  induction ids with
  | nil => intro s j hj; simp at hj
  | cons x t ih =>
    intro s j hj
    rw [List.length_cons, List.range'_succ, List.zip_cons_cons]
    cases j with
    | zero => simp [List.find?]
    | succ k =>
      have hk : k < t.length := by simpa using hj
      simp only [List.getElem_cons_succ]
      have hne2 : (decide (x = t[k]) : Bool) = false := by
        rw [decide_eq_false_iff_not]
        intro he
        exact (List.nodup_cons.mp hnd).1 (he ▸ List.getElem_mem hk)
      rw [List.find?_cons]
      simp only [hne2]
      rw [ih (List.nodup_cons.mp hnd).2 (s + 1) k hk]
      simp only [Option.some.injEq, Prod.mk.injEq]
      exact ⟨trivial, by omega⟩

/-- Scanning with accumulated row lengths is scanning the length list. -/
theorem scanl_length_map : ∀ (rs : List (List (Nat × ℚ))) (a : Nat),
    List.scanl (fun acc r => acc + r.length) a rs =
      List.scanl (fun x d => x + d) a (rs.map List.length) := by
  intro rs
  induction rs with
  | nil => intro a; rfl
  | cons r t ih =>
    intro a
    simp only [List.map_cons, List.scanl]
    rw [ih]

/-- When the supplied identifiers are the whole (duplicate-free)
vocabulary in order, the stored sparse column is the CSR's rows in row
order. -/
theorem sparse_col_eq {l : List Int} (hnd : l.Nodup) (c : CSR) :
    l.map (sparseCellFor l c) =
      (List.range l.length).map (fun j => Cell.sparseV (c.row j)) := by
  apply List.ext_getElem
  · simp
  · intro j h1 h2
    have hj : j < l.length := by simpa using h1
    rw [List.getElem_map, List.getElem_map, List.getElem_range]
    simp only [sparseCellFor]
    rw [List.range_eq_range']
    rw [find_zip_range_aux hnd 0 j hj]
    simp

/-- C2: a SPARSE attribute built from a well-formed CSR structure over
the whole vocabulary exports a sparse matrix with the identical
row-pointer array and identical number of stored non-zeros. -/
theorem sparse_export_roundtrip (b : DatasetBuilder) (name : String)
    (c : CSR) (ns : Option (List String)) (b' : DatasetBuilder)
    (hnd : b.vocab.ids.Nodup) (hWF : c.WF)
    (hok : b.addVectorAttribute name b.vocab.ids (.sparseCSR c) ns =
      .ok b') :
    ∃ a, b'.attrs.getLast? = some (name, a) ∧
      a.sparseMatrix.indptr = c.indptr ∧
      a.sparseMatrix.nnz = c.nnz := by
  simp only [DatasetBuilder.addVectorAttribute] at hok
  split_ifs at hok with h0 h1 h2 h3
  rw [Except.ok.injEq] at hok
  subst hok
  have hrows : c.nrows = b.vocab.ids.length := of_not_not h2
  have hhead := hWF.1
  have hchain := hWF.2.1
  have hlast := hWF.2.2.1
  obtain ⟨t, ht⟩ : ∃ t, c.indptr = 0 :: t := by
    cases hh : c.indptr with
    | nil => rw [hh] at hhead; exact Option.noConfusion hhead
    | cons a0 t =>
      rw [hh] at hhead
      simp only [List.head?_cons, Option.some.injEq] at hhead
      exact ⟨t, by rw [hhead]⟩
  have hlen1 : c.indptr.length = b.vocab.ids.length + 1 := by
    have : c.indptr.length ≠ 0 := by rw [ht]; simp
    simp only [CSR.nrows] at hrows
    omega
  have hrowsmap : (b.vocab.ids.map (sparseCellFor b.vocab.ids c)).map
      sparsePairs = (List.range b.vocab.ids.length).map c.row := by
    rw [sparse_col_eq hnd c, List.map_map]
    apply List.map_congr_left
    intro j hj
    simp [sparsePairs, Function.comp]
  have hdiffs : ((List.range b.vocab.ids.length).map c.row).map
      List.length = diffs c.indptr := by
    rw [List.map_map]
    apply List.ext_getElem
    · simp only [List.length_map, List.length_range, diffs,
        List.length_zip, List.length_tail]
      omega
    · intro j h1 h2
      have hj : j < b.vocab.ids.length := by simpa using h1
      have hjr : j < c.nrows := by omega
      rw [List.getElem_map, List.getElem_range]
      simp only [Function.comp]
      rw [csr_row_length c hWF j hjr]
      simp only [diffs, List.getElem_map, List.getElem_zip,
        List.getElem_tail]
      have hj1 : j + 1 < c.indptr.length := by omega
      have hj0 : j < c.indptr.length := by omega
      rw [List.getD_eq_getElem c.indptr 0 hj1, List.getD_eq_getElem c.indptr 0 hj0]
  have hscan : List.scanl (fun acc r => acc + r.length) 0
      ((List.range b.vocab.ids.length).map c.row) = c.indptr := by
    rw [scanl_length_map, hdiffs, ht]
    exact scanl_add_diffs t 0 (ht ▸ hchain)
  have hsum : (((List.range b.vocab.ids.length).map c.row).map
      List.length).sum = c.values.length := by
    rw [hdiffs, ht]
    have hs := sum_diffs t 0 (ht ▸ hchain)
    have hlast2 : (0 :: t).getLast (by simp) = c.values.length := by
      have hne : c.indptr ≠ [] := by rw [ht]; simp
      have := List.getLast?_eq_getLast_of_ne_nil hne
      rw [this] at hlast
      have hval := Option.some.inj hlast
      rw [← hval]
      have : c.indptr.getLast hne = (0 :: t).getLast (by simp) := by
        congr 1
      exact this.symm
    omega
  refine ⟨⟨.sparse, some c.ncols, ns,
    b.vocab.ids.map (sparseCellFor b.vocab.ids c)⟩,
    getLast?_append_single _ _, ?_, ?_⟩
  · simp only [Attribute.sparseMatrix]
    rw [hrowsmap, hscan]
  · simp only [Attribute.sparseMatrix, CSR.nnz]
    rw [hrowsmap]
    rw [List.length_map, List.length_flatten, hsum]

/-- Closed instance of `sparse_export_roundtrip` on a concrete CSR
structure. -/
theorem sparse_export_roundtrip_witness :
    ∃ a, (DatasetBuilder.mk ⟨[4, 6]⟩
        [("g", ⟨.sparse, some 3, none,
          [.sparseV [(0, 5), (2, 7)], .sparseV [(1, 9)]]⟩)]).attrs.getLast?
        = some ("g", a) ∧
      a.sparseMatrix.indptr = (CSR.mk [0, 2, 3] [0, 2, 1] [5, 7, 9] 3).indptr ∧
      a.sparseMatrix.nnz = (CSR.mk [0, 2, 3] [0, 2, 1] [5, 7, 9] 3).nnz :=
  sparse_export_roundtrip ⟨⟨[4, 6]⟩, []⟩ "g"
    ⟨[0, 2, 3], [0, 2, 1], [5, 7, 9], 3⟩ none _ (by decide)
    ⟨rfl, by simp, rfl, rfl⟩ rfl

/-- Closed instance of `addVector_ragged_rejected` on a concrete ragged
matrix. -/
theorem addVector_ragged_rejected_witness :
    (DatasetBuilder.mk ⟨[1, 2]⟩ []).addVectorAttribute "e" [1, 2]
        (.dense [[1], [2, 3]]) none = .error .DimensionMismatch ∧
    (DatasetBuilder.mk ⟨[1, 2]⟩ []).applyOp
        (.vectorAttr "e" [1, 2] (.dense [[1], [2, 3]]) none) =
      DatasetBuilder.mk ⟨[1, 2]⟩ [] :=
  addVector_ragged_rejected ⟨⟨[1, 2]⟩, []⟩ "e" [1, 2] [[1], [2, 3]] none
    (by decide) (by decide) ⟨[2, 3], by simp, by simp⟩

/-! ## Bulk metric results (`lenskit/metrics/bulk.py`)

Translated from the Python source: `RunAnalysisResult` stores a
per-list metric frame, global metric scores, and per-metric defaults;
`list_metrics` returns `self._list_metrics.fillna(self._defaults)`. -/

/-- A per-list metric frame: one column per metric label, one optional
value (`none` = NaN) per list. -/
structure MetricFrame where
  cols : List (String × List (Option ℚ))
deriving DecidableEq, Repr

/-- `DataFrame.fillna(defaults)` with a per-column defaults mapping:
missing values of a column whose label has a default are replaced by
that default; other columns are untouched. -/
def fillna (defaults : List (String × ℚ)) (f : MetricFrame) : MetricFrame :=
  ⟨f.cols.map (fun c =>
    match defaults.find? (fun d => d.1 = c.1) with
    | some d => (c.1, c.2.map (fun o => some (o.getD d.2)))
    | none => c)⟩

/-- Translated from `RunAnalysisResult.__init__`: the stored per-list
frame, global series and defaults dict. -/
structure RunAnalysisResult where
  listMetricsF : MetricFrame
  globalMetricsS : List (String × ℚ)
  defaults : List (String × ℚ)
deriving DecidableEq, Repr

/-- Translated from `RunAnalysisResult.list_metrics`: the body returns
`self._list_metrics.fillna(self._defaults)`; the `fill_missing`
parameter does not occur in the body. -/
def RunAnalysisResult.list_metrics (r : RunAnalysisResult)
    (fill_missing : Bool) : MetricFrame :=
  fillna r.defaults r.listMetricsF

/-- In a filled column with default `d`, every missing value becomes
`d` and every present value is kept. -/
theorem fillna_col_entry (defaults : List (String × ℚ))
    (f : MetricFrame) (c : String × List (Option ℚ)) (d : String × ℚ)
    (hc : c ∈ f.cols) (hd : defaults.find? (fun p => p.1 = c.1) = some d) :
    (c.1, c.2.map (fun o => some (o.getD d.2))) ∈ (fillna defaults f).cols := by
  simp only [fillna, List.mem_map]
  exact ⟨c, hc, by rw [hd]⟩

/-- C9: `list_metrics` ignores its `fill_missing` argument — for every
result and any two flag values the returned frames are identical, and
both equal the defaults-filled stored frame. -/
theorem list_metrics_fill_missing_irrelevant (r : RunAnalysisResult)
    (b1 b2 : Bool) :
    r.list_metrics b1 = r.list_metrics b2 ∧
    r.list_metrics b1 = fillna r.defaults r.listMetricsF :=
  ⟨rfl, rfl⟩

/-! ## User-based k-NN scorer (`lenskit/knn/user.py`) -/

/-- Dot product of two aligned rating vectors. -/
def dot (a b : List ℚ) : ℚ :=
  ((a.zip b).map (fun p => p.1 * p.2)).sum

/-- Translated from `UserKNNScorer._center_ratings` (explicit mode):
per-user means with a zero-count guard, mean subtraction, and the
degenerate-data check `np.allclose(rmat.data, 0.0)` which only emits a
`DataWarning` (the flag in the result) and never raises.  The CSR value
array is represented by its rows of stored values; `atol` is the
allclose tolerance. -/
def centerRatings (explicit : Bool) (rows : List (List ℚ)) (atol : ℚ) :
    List (List ℚ) × Option (List ℚ) × Bool :=
  if explicit then
    let means := rows.map (fun r =>
      if 0 < r.length then r.sum / (r.length : ℚ) else 0)
    let centered := (rows.zip means).map (fun p =>
      p.1.map (fun x => x - p.2))
    let warned := centered.flatten.all (fun x => |x| ≤ atol)
    (centered, some means, warned)
  else (rows, none, false)

/-- Centering subtracts each row's own mean. -/
theorem centerRatings_rows (rows : List (List ℚ)) (atol : ℚ) :
    (centerRatings true rows atol).1 = rows.map (fun r =>
      r.map (fun x => x -
        (if 0 < r.length then r.sum / (r.length : ℚ) else 0))) := by
  simp only [centerRatings, if_pos]
  have : rows.zip (rows.map (fun r =>
      if 0 < r.length then r.sum / (r.length : ℚ) else 0)) =
      rows.map (fun r => (r, if 0 < r.length then r.sum / (r.length : ℚ) else 0)) := by
    have h := List.zip_map' id (fun r : List ℚ =>
      if 0 < r.length then r.sum / (r.length : ℚ) else 0) rows
    simpa using h
  rw [this, List.map_map]
  rfl

/-- C8: on statistically degenerate data (all centered values within
the allclose tolerance) the explicit-mode centering sets the warning
flag and still returns the computed centered matrix and means —
a warning, never an error. -/
theorem center_ratings_degenerate_warns (rows : List (List ℚ)) (atol : ℚ)
    (hdeg : ∀ x ∈ (centerRatings true rows atol).1.flatten, |x| ≤ atol) :
    (centerRatings true rows atol).2.2 = true ∧
    (centerRatings true rows atol).1 = rows.map (fun r =>
      r.map (fun x => x -
        (if 0 < r.length then r.sum / (r.length : ℚ) else 0))) ∧
    (centerRatings true rows atol).2.1 = some (rows.map (fun r =>
      if 0 < r.length then r.sum / (r.length : ℚ) else 0)) := by
  refine ⟨?_, centerRatings_rows rows atol, rfl⟩
  have hflag : (centerRatings true rows atol).2.2 =
      (centerRatings true rows atol).1.flatten.all (fun x => |x| ≤ atol) := rfl
  rw [hflag, List.all_eq_true]
  intro x hx
  simpa using hdeg x hx

/-- Closed instance of `center_ratings_degenerate_warns` on a concrete
constant rating matrix. -/
theorem center_ratings_degenerate_warns_witness :
    (centerRatings true [[0, 0], [0]] (1 : ℚ)).2.2 = true ∧
    (centerRatings true [[0, 0], [0]] (1 : ℚ)).1 =
      ([[0, 0], [0]] : List (List ℚ)).map (fun r =>
        r.map (fun x => x -
          (if 0 < r.length then r.sum / (r.length : ℚ) else 0))) ∧
    (centerRatings true [[0, 0], [0]] (1 : ℚ)).2.1 =
      some (([[0, 0], [0]] : List (List ℚ)).map (fun r =>
        if 0 < r.length then r.sum / (r.length : ℚ) else 0)) :=
  center_ratings_degenerate_warns [[0, 0], [0]] (1 : ℚ) (by
    intro x hx
    simp [centerRatings] at hx
    simp [hx])

/-- Configuration of the scorer (`UserKNNConfig`): neighbor bounds,
similarity floor, feedback mode. -/
structure UserKNNConfig where
  maxNbrs : Nat
  minNbrs : Nat
  minSim : ℚ
  explicit : Bool
deriving DecidableEq, Repr

/-- An item list as consumed by the scorer: item identifiers plus the
optional `rating` field. -/
structure ItemList where
  ids : List Int
  ratings : Option (List ℚ)
deriving DecidableEq, Repr

/-- A recommendation query: user identifier and optional item history
(`RecQuery` as used by the scorer). -/
structure RecQuery where
  userId : Option Int
  userItems : Option ItemList
deriving DecidableEq, Repr

/-- The trained scorer state (`UserKNNScorer` after `train`): user and
item vocabularies, the normalized rating row per user, and the per-user
means (explicit mode). -/
structure UserKNNScorer where
  users : Vocabulary
  items : Vocabulary
  userVectors : List (List ℚ)
  userMeans : Option (List ℚ)
deriving DecidableEq, Repr

/-- Scatter (position, value) pairs into a zero vector of length `n`
(`ratings[ui_nos[ui_mask]] = ...`). -/
def scatter (n : Nat) (ps : List (Nat × ℚ)) : List ℚ :=
  ps.foldl (fun acc p => acc.set p.1 p.2) (List.replicate n 0)

/-- Translated from `UserKNNScorer._get_user_data`: resolve the query
user's index; without provided history an unknown user yields none,
otherwise the trained row and mean are used; with provided history an
empty list yields none, explicit mode without a rating field yields
none, otherwise a dense mean-centered (or binary) vector over the item
vocabulary is built. -/
def UserKNNScorer.getUserData (S : UserKNNScorer) (cfg : UserKNNConfig)
    (q : RecQuery) : Option (Option Nat × List ℚ × ℚ) :=
  let index := q.userId.bind S.users.positionOf
  match q.userItems with
  | none =>
    match index with
    | none => none
    | some idx =>
      let row := S.userVectors.getD idx []
      let umean := if cfg.explicit then (S.userMeans.getD []).getD idx 0
        else 0
      some (some idx, row, umean)
  | some ui =>
    if ui.ids.length = 0 then none
    else if cfg.explicit then
      match ui.ratings with
      | none => none
      | some urv =>
        let umean := urv.sum / (urv.length : ℚ)
        let pairs := (ui.ids.zip urv).filterMap (fun p =>
          (S.items.positionOf p.1).map (fun j => (j, p.2 - umean)))
        some (index, scatter S.items.size pairs, umean)
    else
      let pairs := ui.ids.filterMap (fun i =>
        (S.items.positionOf i).map (fun j => (j, (1 : ℚ))))
      some (index, scatter S.items.size pairs, 0)

/-- Neighbor similarities: one dot product per trained user, with the
query user's self-similarity zeroed (`nbr_sims[uidx] = 0`). -/
def simsOf (S : UserKNNScorer) (uidx : Option Nat) (ratings : List ℚ) :
    List ℚ :=
  let sims := S.userVectors.map (fun row => dot row ratings)
  match uidx with
  | some u => sims.set u 0
  | none => sims

/-- The usable neighbors: indices paired with similarities at least
`min_sim` (`nbr_mask = nbr_sims >= min_sim`). -/
def neighborsOf (S : UserKNNScorer) (minSim : ℚ) (uidx : Option Nat)
    (ratings : List ℚ) : List (Nat × ℚ) :=
  ((List.range S.users.size).zip (simsOf S uidx ratings)).filter
    (fun p => minSim ≤ p.2)

/-- Re-expand kernel scores over the usable (known) items back to the
full candidate order; unknown candidates keep NaN
(`results.reindex(items.ids())`). -/
def alignScores : List (Option Nat) → List (Option ℚ) → List (Option ℚ)
  | [], _ => []
  | none :: t, ss => none :: alignScores t ss
  | some _ :: t, [] => none :: alignScores t []
  | some _ :: t, s :: ss => s :: alignScores t ss

/-- Translated from `UserKNNScorer.__call__`: empty candidate lists,
absent user data, and an empty neighborhood short-circuit to all-NaN
scores over the unchanged candidate list; otherwise the accelerator
kernel (`knn.user_score_items_*`, not among the source files, hence a
parameter) scores the known candidates, the user mean is added, and the
scores are re-aligned to the candidate order. -/
def UserKNNScorer.callScore (S : UserKNNScorer) (cfg : UserKNNConfig)
    (kernel : List Nat → List Nat → List ℚ → List (Option ℚ))
    (q : RecQuery) (items : List Int) : List Int × List (Option ℚ) :=
  if items.length = 0 then (items, items.map (fun _ => none))
  else
    match S.getUserData cfg q with
    | none => (items, items.map (fun _ => none))
    | some (uidx, ratings, umean) =>
      let kn := neighborsOf S cfg.minSim uidx ratings
      if kn.length = 0 then (items, items.map (fun _ => none))
      else
        let iidxs := items.map S.items.positionOf
        let usable := iidxs.filterMap id
        let scores := kernel usable (kn.map Prod.fst) (kn.map Prod.snd)
        let scores2 := scores.map (fun s => s.map (fun x => x + umean))
        (items, alignScores iidxs scores2)

/-- Alignment preserves the candidate count. -/
theorem alignScores_length : ∀ (t : List (Option Nat))
    (ss : List (Option ℚ)), (alignScores t ss).length = t.length := by
  intro t
  induction t with
  | nil => intro ss; rfl
  | cons h rest ih =>
    intro ss
    cases h with
    | none => simp [alignScores, ih]
    | some j =>
      cases ss with
      | nil => simp [alignScores, ih]
      | cons s ss => simp [alignScores, ih]

/-- C10: the scorer returns exactly the candidate items in candidate
order with one score slot per candidate, and every score is NaN when
the candidate list is empty, when no user data is available (unknown
user without history, empty history, or missing ratings), or when no
trained user reaches the `min_sim` similarity floor. -/
theorem userknn_call_candidates (S : UserKNNScorer) (cfg : UserKNNConfig)
    (kernel : List Nat → List Nat → List ℚ → List (Option ℚ))
    (q : RecQuery) (items : List Int) :
    (S.callScore cfg kernel q items).1 = items ∧
    (S.callScore cfg kernel q items).2.length = items.length ∧
    (items = [] →
      ∀ s ∈ (S.callScore cfg kernel q items).2, s = none) ∧
    (S.getUserData cfg q = none →
      ∀ s ∈ (S.callScore cfg kernel q items).2, s = none) ∧
    (∀ uidx ratings umean,
      S.getUserData cfg q = some (uidx, ratings, umean) →
      neighborsOf S cfg.minSim uidx ratings = [] →
      ∀ s ∈ (S.callScore cfg kernel q items).2, s = none) := by
  refine ⟨?_, ?_, ?_, ?_, ?_⟩
  · simp only [UserKNNScorer.callScore]
    split_ifs with hi
    · rfl
    · cases hud : S.getUserData cfg q with
      | none => rfl
      | some ud =>
        obtain ⟨uidx, ratings, umean⟩ := ud
        simp only []
        split_ifs with hk
        · rfl
        · rfl
  · simp only [UserKNNScorer.callScore]
    split_ifs with hi
    · simp
    · cases hud : S.getUserData cfg q with
      | none => simp
      | some ud =>
        obtain ⟨uidx, ratings, umean⟩ := ud
        simp only []
        split_ifs with hk
        · simp
        · simp [alignScores_length]
  · intro h s hs
    subst h
    simp [UserKNNScorer.callScore] at hs
  · intro h s hs
    simp only [UserKNNScorer.callScore, h] at hs
    split_ifs at hs with hi
    all_goals
      obtain ⟨x, hx, rfl⟩ := List.mem_map.mp hs
    all_goals rfl
  · intro uidx ratings umean hud hkn s hs
    simp only [UserKNNScorer.callScore, hud, hkn, List.length_nil] at hs
    split_ifs at hs
    all_goals obtain ⟨x, hx, rfl⟩ := List.mem_map.mp hs
    all_goals rfl

/-- Closed instance of `userknn_call_candidates`: a concrete query for
an unknown user with no history yields the candidates unchanged with
all-NaN scores. -/
theorem userknn_call_candidates_witness :
    ((UserKNNScorer.mk ⟨[1]⟩ ⟨[10, 11]⟩ [[1, 0]] (some [0])).callScore
        ⟨20, 1, 1, true⟩ (fun u _ _ => u.map (fun _ => some 1))
        ⟨some 5, none⟩ [10, 11]).1 = [10, 11] ∧
    ∀ s ∈ ((UserKNNScorer.mk ⟨[1]⟩ ⟨[10, 11]⟩ [[1, 0]] (some [0])).callScore
        ⟨20, 1, 1, true⟩ (fun u _ _ => u.map (fun _ => some 1))
        ⟨some 5, none⟩ [10, 11]).2, s = none :=
  ⟨(userknn_call_candidates (UserKNNScorer.mk ⟨[1]⟩ ⟨[10, 11]⟩ [[1, 0]]
      (some [0])) ⟨20, 1, 1, true⟩ (fun u _ _ => u.map (fun _ => some 1))
      ⟨some 5, none⟩ [10, 11]).1,
   (userknn_call_candidates (UserKNNScorer.mk ⟨[1]⟩ ⟨[10, 11]⟩ [[1, 0]]
      (some [0])) ⟨20, 1, 1, true⟩ (fun u _ _ => u.map (fun _ => some 1))
      ⟨some 5, none⟩ [10, 11]).2.2.2.1 rfl⟩

end LKSpec
